import Mathlib

/-!
Verification of the simplemod append-only procfs buffer log.

Shallow embedding of src/simple_context.c and src/simple_driver.c: an
append-only in-memory log of byte records exposed through a procfs
pseudo-file, together with a staged init/term lifecycle.

Bytes are modelled as Nat, machine integer return values (ssize_t, int)
as Int.  The user-to-kernel copy primitive (copy_from_user) is treated
as an abstract fallible bulk copy: it is parametrised by the number of
bytes it fails to transfer (notCopied), and the bytes it does transfer
are a prefix of the user buffer, with the remainder of the
zero-initialised destination left zeroed.
-/

namespace Simplemod

/-- Error number ENOMEM (returned negated, matching errno conventions). -/
def ENOMEM : Int := 12

/-- Error number EFAULT, the bad-address error. -/
def EFAULT : Int := 14

/-- Model of struct simple_buffer_entry: one node of the buffer list.
Field len is the stored length; buf is the flexible byte array as
allocated (zero-filled by kzalloc, then overwritten by the user copy). -/
structure SimpleBufferEntry where
  len : Nat
  buf : List Nat
  deriving DecidableEq, Repr

/-- The bytes that simple_context_seq_show emits for one entry:
seq_write(seq, entry->buf, entry->len) writes the first len bytes of
the array. -/
def simple_context_seq_show (e : SimpleBufferEntry) : List Nat :=
  e.buf.take e.len

/-- The Buffer Log: the contents of the ctx->buf_list.head list in
order, head first; appends happen at the tail (list_add_tail). -/
abbrev BufferLog := List SimpleBufferEntry

/-- Result of one call of simple_context_proc_write: the ssize_t return
value, the log after the call, the file position after the call, and
whether the freshly allocated entry was released again (the kfree on
the zero-copy failure path). -/
structure WriteResult where
  ret : Int
  log : BufferLog
  pos : Int
  freedEntry : Bool
  deriving DecidableEq, Repr

/-- Model of simple_context_proc_write(file, user_buf, len, pos).

Arguments: log and pos are the buffer list of the context and the file
position *pos; ubuf holds the bytes of the userspace buffer user_buf
(of length len); allocOk states whether kzalloc succeeds; notCopied is
the return value of copy_from_user, i.e. the number of bytes that could
not be transferred (always at most len).

Mirrors the source line by line: on allocation failure return 0;
otherwise written = len - copy_from_user(...), entry->len = written; if
written == 0, free the entry and return -EFAULT; otherwise append the
entry at the tail under the lock, advance *pos by written and return
written. -/
def simple_context_proc_write (log : BufferLog) (ubuf : List Nat)
    (len : Nat) (pos : Int) (allocOk : Bool) (notCopied : Nat) :
    WriteResult :=
  if allocOk = false then
    ⟨0, log, pos, false⟩
  else
    let written : Nat := len - notCopied
    let entry : SimpleBufferEntry :=
      ⟨written, ubuf.take written ++ List.replicate (len - written) 0⟩
    if written = 0 then
      ⟨-EFAULT, log, pos, true⟩
    else
      ⟨(written : Int), log ++ [entry], pos + (written : Int), false⟩

/-- One read session of the seq_file iteration: starting from logical
index pos (as produced by seq_list_start), emit the current entry via
show, advance with seq_list_next, and repeat until end-of-sequence.
fuel bounds the recursion; a session over the lock-frozen list ends
after at most log.length steps. -/
def seqIter (log : BufferLog) : Nat → Nat → List Nat
  | 0, _ => []
  | fuel + 1, pos =>
    match log[pos]? with
    | none => []
    | some e => simple_context_seq_show e ++ seqIter log fuel (pos + 1)

/-- A full read of the pseudo-file from position 0: one read session of
the seq_file helpers over the lock-frozen list. -/
def readFull (log : BufferLog) : List Nat :=
  seqIter log log.length 0

/-- Operations of the pseudo-file adapter that a userspace process can
invoke on the node.  Only write carries parameters that matter to the
log; open, read and release never modify the list. -/
inductive Op where
  | write (ubuf : List Nat) (len : Nat) (pos : Int) (allocOk : Bool)
      (notCopied : Nat)
  | openFile
  | readFile
  | closeFile

/-- Effect of one adapter operation on the Buffer Log.  The read-side
hooks (open, start/next/show/stop, release) only traverse the list;
only the write hook mutates it. -/
def step (log : BufferLog) : Op → BufferLog
  | Op.write ubuf len pos allocOk notCopied =>
    (simple_context_proc_write log ubuf len pos allocOk notCopied).log
  | Op.openFile => log
  | Op.readFile => log
  | Op.closeFile => log

/-- Run a sequence of adapter operations against a Buffer Log. -/
def run (log : BufferLog) : List Op → BufferLog
  | [] => log
  | op :: ops => run (step log op) ops

/-!
Lock-discipline traces.  The write and read paths are modelled as
sequences of atomic actions so that the position of the userspace copy
relative to the mutex acquire/release is visible.
-/

/-- Atomic actions of the write and read paths, in source order. -/
inductive Act where
  | alloc
  | userCopy
  | lock
  | unlock
  | appendTail
  | free
  | posAdvance
  | seqLocate
  | seqShowEmit
  | seqNext
  deriving DecidableEq, Repr

/-- The action sequence of one simple_context_proc_write call, for each
of its three control paths: allocation failure (return 0 after
kzalloc); zero-copy failure (kfree and -EFAULT); success (mutex_lock,
list_add_tail, mutex_unlock, then *pos update). -/
def writeTrace (allocOk : Bool) (written : Nat) : List Act :=
  if allocOk = false then
    [Act.alloc]
  else if written = 0 then
    [Act.alloc, Act.userCopy, Act.free]
  else
    [Act.alloc, Act.userCopy, Act.lock, Act.appendTail, Act.unlock,
      Act.posAdvance]

/-- The body of a read session showing k entries: each iteration is one
seq_show emission followed by one seq_list_next advance. -/
def readBody : Nat → List Act
  | 0 => []
  | k + 1 => Act.seqShowEmit :: Act.seqNext :: readBody k

/-- The action sequence of one read session: seq_start acquires the
mutex and locates the cursor, the body iterates, seq_stop releases the
mutex. -/
def readTrace (k : Nat) : List Act :=
  Act.lock :: Act.seqLocate :: (readBody k ++ [Act.unlock])

/-- Lock depth after a sequence of actions: acquisitions minus
releases. -/
def lockDepth (tr : List Act) : Nat :=
  tr.count Act.lock - tr.count Act.unlock

/-- The action at index i of a trace runs with the lock held when the
actions before it leave a positive lock depth. -/
abbrev underLock (tr : List Act) (i : Nat) : Prop :=
  0 < lockDepth (tr.take i)

/-!
Staged lifecycle.  The table g_ctx_init holds (init, term) pairs; the
init loop of simple_context_init is modelled with the stage init
results abstracted as a function from stage index to returned int, and
term invocations recorded as the list of stage indices in call order.
-/

/-- Number of entries of the g_ctx_init table (buffer list stage 0,
procfs stage 1). -/
def g_ctx_init_size : Nat := 2

/-- Return value of each init of the concrete g_ctx_init table:
simple_context_buffer_list_init always returns 0;
simple_context_procfs_init returns -ENOMEM exactly when
proc_create_data returns NULL. -/
def g_ctx_init_ret (procCreateOk : Bool) : Nat → Int
  | 0 => 0
  | 1 => if procCreateOk then 0 else -ENOMEM
  | _ => 0

/-- Model of simple_context_term_partial(ctx, i): while (i-- > 0) call
g_ctx_init[i].term(ctx).  Returns the stage indices whose term runs, in
call order. -/
def simple_context_term_partial : Nat → List Nat
  | 0 => []
  | i + 1 => i :: simple_context_term_partial i

/-- The for loop of simple_context_init: for (i = 0; !ret && i < n;
++i) ret = g_ctx_init[i].init(ctx).  State (i, ret); fuel bounds the
recursion (at most n iterations happen).  Returns the final (ret, i):
note that i has been incremented past the failed stage when the loop
exits on a non-zero ret. -/
def initLoopGo (stageInit : Nat → Int) (n : Nat) :
    Nat → Nat → Int → Int × Nat
  | 0, i, ret => (ret, i)
  | fuel + 1, i, ret =>
    if ret = 0 ∧ i < n then
      initLoopGo stageInit n fuel (i + 1) (stageInit i)
    else
      (ret, i)

/-- The init loop run from its initial state (i = 0, ret = 0). -/
def initLoop (stageInit : Nat → Int) (n : Nat) : Int × Nat :=
  initLoopGo stageInit n (n + 1) 0 0

/-- Result of simple_context_init: the returned error code, the stage
indices whose term ran (in call order) and whether kfree(ctx) was
executed. -/
structure InitResult where
  ret : Int
  termCalls : List Nat
  freedCtx : Bool
  deriving DecidableEq, Repr

/-- Model of simple_context_init(ctx): run the init loop; if it failed,
call simple_context_term_partial(ctx, i) and kfree(ctx); return ret. -/
def simple_context_init (stageInit : Nat → Int) (n : Nat) : InitResult :=
  let r := initLoop stageInit n
  if r.1 ≠ 0 then
    ⟨r.1, simple_context_term_partial r.2, true⟩
  else
    ⟨0, [], false⟩

/-- Model of simple_context_term(ctx):
simple_context_term_partial(ctx, ARRAY_SIZE(g_ctx_init)).  Returns the
stage indices whose term runs, in call order. -/
def simple_context_term (n : Nat) : List Nat :=
  simple_context_term_partial n

/-- Result of simple_context_buffer_list_term: the entries passed to
kfree (in traversal order) and the entries still allocated
afterwards. -/
structure BufListTermResult where
  freed : List SimpleBufferEntry
  remaining : BufferLog
  deriving DecidableEq, Repr

/-- Model of simple_context_buffer_list_term(ctx):
list_for_each_safe over the buffer list, freeing every entry. -/
def simple_context_buffer_list_term : BufferLog → BufListTermResult
  | [] => ⟨[], []⟩
  | e :: rest =>
    let r := simple_context_buffer_list_term rest
    ⟨e :: r.freed, r.remaining⟩

/-!
Helper lemmas about the read iteration and the write paths.
-/

/-- Running the seq iteration with enough fuel emits the concatenation
of the shown entries from index pos onwards. -/
theorem seqIter_eq_flatten (log : BufferLog) :
    ∀ fuel pos, log.length ≤ pos + fuel →
      seqIter log fuel pos =
        ((log.drop pos).map simple_context_seq_show).flatten := by
  intro fuel
  induction fuel with
  | zero =>
    intro pos h
    rw [List.drop_eq_nil_of_le (by omega)]
    simp [seqIter]
  | succ fuel ih =>
    intro pos h
    rw [seqIter]
    cases hg : log[pos]? with
    | none =>
      rw [List.drop_eq_nil_of_le (List.getElem?_eq_none_iff.mp hg)]
      simp
    | some e =>
      have hlt : pos < log.length := (List.getElem?_eq_some_iff.mp hg).1
      have he : log[pos] = e := by
        rw [List.getElem?_eq_getElem hlt] at hg
        exact Option.some.inj hg
      rw [List.drop_eq_getElem_cons hlt, ih (pos + 1) (by omega)]
      simp [he]

/-- A full read is the byte-wise concatenation of the shown payloads of
the entries, in list (i.e. append) order. -/
theorem readFull_eq_flatten (log : BufferLog) :
    readFull log = (log.map simple_context_seq_show).flatten := by
  rw [readFull, seqIter_eq_flatten log log.length 0 (by omega)]
  simp

/-- Appending one entry extends a full read by the payload of that
entry. -/
theorem readFull_append (log : BufferLog) (e : SimpleBufferEntry) :
    readFull (log ++ [e]) = readFull log ++ simple_context_seq_show e := by
  rw [readFull_eq_flatten, readFull_eq_flatten]
  simp

/-- Characterisation of the successful write path: when allocation
succeeds and at least one byte is copied, the call returns the copied
count, appends exactly one entry recording the copied prefix, and
advances the position by the copied count. -/
theorem proc_write_success (log : BufferLog) (ubuf : List Nat)
    (len : Nat) (pos : Int) (notCopied : Nat)
    (hw : 1 ≤ len - notCopied) :
    simple_context_proc_write log ubuf len pos true notCopied =
      ⟨((len - notCopied : Nat) : Int),
        log ++ [⟨len - notCopied,
          ubuf.take (len - notCopied) ++
            List.replicate (len - (len - notCopied)) 0⟩],
        pos + ((len - notCopied : Nat) : Int), false⟩ := by
  rw [simple_context_proc_write]
  simp only [Bool.true_eq_false, if_false]
  rw [if_neg (by omega)]

/-- A write that reports a positive count ran the successful path:
allocation succeeded and at least one byte was copied. -/
theorem proc_write_pos_ret (log : BufferLog) (ubuf : List Nat)
    (len : Nat) (pos : Int) (allocOk : Bool) (notCopied : Nat)
    (h : 0 < (simple_context_proc_write log ubuf len pos allocOk
      notCopied).ret) :
    allocOk = true ∧ 1 ≤ len - notCopied := by
  cases allocOk with
  | false => simp [simple_context_proc_write] at h
  | true =>
    refine ⟨rfl, ?_⟩
    by_contra hz
    have hz0 : len - notCopied = 0 := by omega
    simp [simple_context_proc_write, hz0, EFAULT] at h

/-- Every entry of the log after a write was either already there or
has positive recorded length. -/
theorem mem_proc_write_log (log : BufferLog) (ubuf : List Nat)
    (len : Nat) (pos : Int) (allocOk : Bool) (notCopied : Nat)
    (e : SimpleBufferEntry)
    (he : e ∈ (simple_context_proc_write log ubuf len pos allocOk
      notCopied).log) :
    e ∈ log ∨ 1 ≤ e.len := by
  cases allocOk with
  | false =>
    simp [simple_context_proc_write] at he
    exact Or.inl he
  | true =>
    by_cases hz : len - notCopied = 0
    · simp [simple_context_proc_write, hz] at he
      exact Or.inl he
    · simp [simple_context_proc_write, hz] at he
      rcases he with he | he
      · exact Or.inl he
      · right
        rw [he]
        show 1 ≤ len - notCopied
        omega

/-- The log after a write extends the log before it: no entry is ever
removed by the write path. -/
theorem proc_write_log_extends (log : BufferLog) (ubuf : List Nat)
    (len : Nat) (pos : Int) (allocOk : Bool) (notCopied : Nat) :
    ∃ tail, (simple_context_proc_write log ubuf len pos allocOk
      notCopied).log = log ++ tail := by
  cases allocOk with
  | false => exact ⟨[], by simp [simple_context_proc_write]⟩
  | true =>
    by_cases hz : len - notCopied = 0
    · exact ⟨[], by simp [simple_context_proc_write, hz]⟩
    · exact ⟨_, by rw [proc_write_success log ubuf len pos notCopied
        (by omega)]⟩

/-- The log after any adapter operation extends the log before it. -/
theorem step_extends (log : BufferLog) (op : Op) :
    ∃ tail, step log op = log ++ tail := by
  cases op with
  | write ubuf len pos allocOk notCopied =>
    exact proc_write_log_extends log ubuf len pos allocOk notCopied
  | openFile => exact ⟨[], by simp [step]⟩
  | readFile => exact ⟨[], by simp [step]⟩
  | closeFile => exact ⟨[], by simp [step]⟩

/-- The log after any sequence of adapter operations extends the log
before it: the sequence only grows while the log is live. -/
theorem run_extends (ops : List Op) :
    ∀ log, ∃ tail, run log ops = log ++ tail := by
  induction ops with
  | nil =>
    intro log
    exact ⟨[], by simp [run]⟩
  | cons op ops ih =>
    intro log
    obtain ⟨t1, h1⟩ := step_extends log op
    obtain ⟨t2, h2⟩ := ih (step log op)
    exact ⟨t1 ++ t2, by rw [run, h2, h1, List.append_assoc]⟩

/-- Running a concatenated operation sequence is running the pieces in
order. -/
theorem run_append (ops1 ops2 : List Op) :
    ∀ log, run log (ops1 ++ ops2) = run (run log ops1) ops2 := by
  induction ops1 with
  | nil => intro log; rw [List.nil_append, run]
  | cons op ops1 ih => intro log; rw [List.cons_append, run, run, ih]

/-- The read-session body never touches userspace memory. -/
theorem userCopy_not_mem_readBody (k : Nat) :
    Act.userCopy ∉ readBody k := by
  induction k with
  | zero => simp [readBody]
  | succ k ih => simp [readBody, ih]

/-- A whole read session never touches userspace memory. -/
theorem userCopy_not_mem_readTrace (k : Nat) :
    Act.userCopy ∉ readTrace k := by
  simp [readTrace, userCopy_not_mem_readBody k]

/-- The write trace on the successful path, as a literal list. -/
theorem writeTrace_success (written : Nat) (hw : written ≠ 0) :
    writeTrace true written =
      [Act.alloc, Act.userCopy, Act.lock, Act.appendTail, Act.unlock,
        Act.posAdvance] := by
  simp [writeTrace, hw]

/-- The write trace on the zero-copy failure path, as a literal
list. -/
theorem writeTrace_fault (written : Nat) (hw : written = 0) :
    writeTrace true written = [Act.alloc, Act.userCopy, Act.free] := by
  simp [writeTrace, hw]

/-- Spelling out simple_context_buffer_list_term: it frees exactly the
entries of the list, in order, and leaves nothing allocated. -/
theorem buffer_list_term_spec (log : BufferLog) :
    (simple_context_buffer_list_term log).freed = log ∧
    (simple_context_buffer_list_term log).remaining = [] := by
  induction log with
  | nil => exact ⟨rfl, rfl⟩
  | cons e rest ih =>
    rw [simple_context_buffer_list_term]
    exact ⟨by simp [ih.1], by simp [ih.2]⟩

/-- The write path preserves the positive-length property of all log
entries; the read-side operations do not modify the log at all. -/
theorem run_preserves_len (ops : List Op) :
    ∀ log : BufferLog, (∀ e ∈ log, 1 ≤ e.len) →
      ∀ e ∈ run log ops, 1 ≤ e.len := by
  induction ops with
  | nil =>
    intro log h e he
    rw [run] at he
    exact h e he
  | cons op ops ih =>
    intro log h e he
    rw [run] at he
    refine ih (step log op) ?_ e he
    intro f hf
    cases op with
    | write ubuf len pos allocOk notCopied =>
      simp only [step] at hf
      rcases mem_proc_write_log log ubuf len pos allocOk notCopied f hf
        with h' | h'
      · exact h f h'
      · exact h'
    | openFile => exact h f hf
    | readFile => exact h f hf
    | closeFile => exact h f hf

/-- The payload shown for the entry built by a write is exactly the
successfully copied prefix of the user buffer. -/
theorem seq_show_write_entry (ubuf : List Nat) (len notCopied : Nat)
    (hub : ubuf.length = len) :
    simple_context_seq_show
      ⟨len - notCopied,
        ubuf.take (len - notCopied) ++
          List.replicate (len - (len - notCopied)) 0⟩ =
      ubuf.take (len - notCopied) := by
  rw [simple_context_seq_show]
  refine List.take_left' ?_
  rw [List.length_take, hub]
  exact Nat.min_eq_left (Nat.sub_le _ _)

/-!
Claim theorems.
-/

/-- C1, counterexample: the claim states that a zero-length write is
reported as zero bytes written.  On the code, a zero-length write with
a successful allocation takes the written == 0 branch and returns
-EFAULT, not 0 (the log is indeed unchanged). -/
theorem C1_counterexample :
    (simple_context_proc_write [] [] 0 0 true 0).ret ≠ 0 ∧
    (simple_context_proc_write [] [] 0 0 true 0).ret = -EFAULT ∧
    (simple_context_proc_write [] [] 0 0 true 0).log = [] := by
  refine ⟨?_, ?_, ?_⟩ <;> decide

/-- C1, amended: a zero-length write never creates an Entry — the log,
and hence a full read, and the file position are unchanged — but it is
reported as -EFAULT (BadUserAddress) when allocation succeeds, and as
zero bytes written only when allocation fails. -/
theorem C1_zero_length_write (log : BufferLog) (ubuf : List Nat)
    (pos : Int) (allocOk : Bool) (notCopied : Nat) :
    (simple_context_proc_write log ubuf 0 pos allocOk notCopied).log =
      log ∧
    readFull (simple_context_proc_write log ubuf 0 pos allocOk
      notCopied).log = readFull log ∧
    (simple_context_proc_write log ubuf 0 pos allocOk notCopied).pos =
      pos ∧
    (simple_context_proc_write log ubuf 0 pos allocOk notCopied).ret =
      (if allocOk then -EFAULT else 0) := by
  cases allocOk with
  | false => simp [simple_context_proc_write]
  | true => simp [simple_context_proc_write]

/-- C3: for a write of len ≥ 1 bytes where allocation succeeds and the
user copy transfers w = len - notCopied bytes with 1 ≤ w, the write
returns w, advances the file position by w, appends exactly one entry
of recorded length w whose shown payload is exactly the copied w-byte
prefix of the user buffer, and a subsequent full read is the previous
full read followed by those w bytes. -/
theorem C3_partial_write_payload (log : BufferLog) (ubuf : List Nat)
    (len : Nat) (pos : Int) (notCopied : Nat)
    (hub : ubuf.length = len) (hw : 1 ≤ len - notCopied) :
    (simple_context_proc_write log ubuf len pos true notCopied).ret =
      ((len - notCopied : Nat) : Int) ∧
    (simple_context_proc_write log ubuf len pos true notCopied).pos =
      pos + ((len - notCopied : Nat) : Int) ∧
    (simple_context_proc_write log ubuf len pos true notCopied).log =
      log ++ [⟨len - notCopied,
        ubuf.take (len - notCopied) ++
          List.replicate (len - (len - notCopied)) 0⟩] ∧
    readFull (simple_context_proc_write log ubuf len pos true
      notCopied).log =
      readFull log ++ ubuf.take (len - notCopied) := by
  rw [proc_write_success log ubuf len pos notCopied hw]
  refine ⟨rfl, rfl, rfl, ?_⟩
  rw [readFull_append, seq_show_write_entry ubuf len notCopied hub]

/-- C3 witness: an 8-byte buffer of which the first 4 bytes are copied
(the last 4 fault) yields return 4, an entry of length 4 recording the
first 4 bytes, and a full read equal to those 4 bytes. -/
theorem C3_partial_write_payload_witness :
    (simple_context_proc_write [] [1, 2, 3, 4, 5, 6, 7, 8] 8 0 true
      4).ret = ((8 - 4 : Nat) : Int) ∧
    (simple_context_proc_write [] [1, 2, 3, 4, 5, 6, 7, 8] 8 0 true
      4).pos = 0 + ((8 - 4 : Nat) : Int) ∧
    (simple_context_proc_write [] [1, 2, 3, 4, 5, 6, 7, 8] 8 0 true
      4).log = [] ++ [⟨8 - 4,
        [1, 2, 3, 4, 5, 6, 7, 8].take (8 - 4) ++
          List.replicate (8 - (8 - 4)) 0⟩] ∧
    readFull (simple_context_proc_write [] [1, 2, 3, 4, 5, 6, 7, 8] 8 0
      true 4).log =
      readFull [] ++ [1, 2, 3, 4, 5, 6, 7, 8].take (8 - 4) :=
  C3_partial_write_payload [] [1, 2, 3, 4, 5, 6, 7, 8] 8 0 4
    (by decide) (by decide)

/-- C5: when entry allocation fails, the write returns zero — no bytes
written and no error — and the log and file position are unmodified
(and nothing was allocated, so nothing is freed). -/
theorem C5_alloc_failure_neutral (log : BufferLog) (ubuf : List Nat)
    (len : Nat) (pos : Int) (notCopied : Nat) :
    simple_context_proc_write log ubuf len pos false notCopied =
      ⟨0, log, pos, false⟩ := by
  simp [simple_context_proc_write]

/-- C6: for a write of len ≥ 1 bytes where the user copy transfers zero
bytes, the write frees the just-allocated entry and fails with -EFAULT
(BadUserAddress); the log and the file position are unchanged, so a
full read is identical to before the write. -/
theorem C6_zero_copy_fault (log : BufferLog) (ubuf : List Nat)
    (len : Nat) (pos : Int) (notCopied : Nat) (h1 : 1 ≤ len)
    (h0 : len - notCopied = 0) :
    simple_context_proc_write log ubuf len pos true notCopied =
      ⟨-EFAULT, log, pos, true⟩ ∧
    readFull (simple_context_proc_write log ubuf len pos true
      notCopied).log = readFull log := by
  have h : simple_context_proc_write log ubuf len pos true notCopied =
      ⟨-EFAULT, log, pos, true⟩ := by
    simp [simple_context_proc_write, h0]
  exact ⟨h, by rw [h]⟩

/-- C6 witness: a 16-byte write whose buffer is entirely unreadable
returns -EFAULT, frees the entry, and leaves the (empty) log and the
position unchanged. -/
theorem C6_zero_copy_fault_witness :
    simple_context_proc_write [] (List.replicate 16 7) 16 0 true 16 =
      ⟨-EFAULT, [], 0, true⟩ ∧
    readFull (simple_context_proc_write [] (List.replicate 16 7) 16 0
      true 16).log = readFull [] :=
  C6_zero_copy_fault [] (List.replicate 16 7) 16 0 16 (by decide)
    (by decide)

/-- C4: a full read from position 0 is the byte-wise concatenation of
the entry payloads in append order; and if a write of A completes
before a write of B and both report positive counts, the recorded bytes
of A appear before those of B in a subsequent full read. -/
theorem C4_concatenation_order :
    (∀ log : BufferLog,
        readFull log = (log.map simple_context_seq_show).flatten) ∧
    (∀ (log : BufferLog) (A B : List Nat) (lenA lenB : Nat)
        (posA posB : Int) (aA aB : Bool) (ncA ncB : Nat),
        A.length = lenA → B.length = lenB →
        0 < (simple_context_proc_write log A lenA posA aA ncA).ret →
        0 < (simple_context_proc_write
              (simple_context_proc_write log A lenA posA aA ncA).log
              B lenB posB aB ncB).ret →
        readFull (simple_context_proc_write
              (simple_context_proc_write log A lenA posA aA ncA).log
              B lenB posB aB ncB).log =
          readFull log ++ A.take (lenA - ncA) ++
            B.take (lenB - ncB)) := by
  refine ⟨readFull_eq_flatten, ?_⟩
  intro log A B lenA lenB posA posB aA aB ncA ncB hA hB h1 h2
  obtain ⟨haA, hwA⟩ := proc_write_pos_ret log A lenA posA aA ncA h1
  subst haA
  have eA : (simple_context_proc_write log A lenA posA true ncA).log =
      log ++ [⟨lenA - ncA,
        A.take (lenA - ncA) ++
          List.replicate (lenA - (lenA - ncA)) 0⟩] := by
    rw [proc_write_success log A lenA posA ncA hwA]
  rw [eA] at h2 ⊢
  obtain ⟨haB, hwB⟩ := proc_write_pos_ret _ B lenB posB aB ncB h2
  subst haB
  have eB : (simple_context_proc_write
      (log ++ [⟨lenA - ncA,
        A.take (lenA - ncA) ++
          List.replicate (lenA - (lenA - ncA)) 0⟩])
      B lenB posB true ncB).log =
      (log ++ [⟨lenA - ncA,
        A.take (lenA - ncA) ++
          List.replicate (lenA - (lenA - ncA)) 0⟩]) ++
      [⟨lenB - ncB,
        B.take (lenB - ncB) ++
          List.replicate (lenB - (lenB - ncB)) 0⟩] := by
    rw [proc_write_success _ B lenB posB ncB hwB]
  rw [eB, readFull_append, readFull_append,
    seq_show_write_entry A lenA ncA hA, seq_show_write_entry B lenB ncB hB]

/-- C4 witness: writing A = [10, 11] (fully copied) and then
B = [20, 21, 22] (first two bytes copied) yields a full read equal to
the two copied prefixes in write order. -/
theorem C4_concatenation_order_witness :
    readFull (simple_context_proc_write
        (simple_context_proc_write [] [10, 11] 2 0 true 0).log
        [20, 21, 22] 3 0 true 1).log =
      readFull [] ++ [10, 11].take (2 - 0) ++ [20, 21, 22].take (3 - 1) :=
  C4_concatenation_order.2 [] [10, 11] [20, 21, 22] 2 3 0 0 true true
    0 1 (by decide) (by decide) (by decide) (by decide)

/-- C7: in every state reachable from the empty log by any sequence of
adapter operations (write, open, read, close), every entry of the log
has recorded length at least 1. -/
theorem C7_entry_len_invariant (ops : List Op) (e : SimpleBufferEntry)
    (he : e ∈ run [] ops) : 1 ≤ e.len :=
  run_preserves_len ops [] (by simp) e he

/-- C7 witness: the entry produced by a successful one-byte write has
length at least 1. -/
theorem C7_entry_len_invariant_witness :
    1 ≤ (⟨1, [5]⟩ : SimpleBufferEntry).len :=
  C7_entry_len_invariant [Op.write [5] 1 0 true 0] ⟨1, [5]⟩ (by decide)

/-- C8: on no control path of the write is the mutex held across the
userspace copy — the copy strictly precedes the acquisition; the only
actions that run with the lock held in a write are the pure in-memory
tail append and the release itself; and a read session performs no
userspace transfer at all under the lock. -/
theorem C8_lock_not_held_across_user_copy :
    (∀ (allocOk : Bool) (written i : Nat),
        (writeTrace allocOk written)[i]? = some Act.userCopy →
        ¬ underLock (writeTrace allocOk written) i) ∧
    (∀ (allocOk : Bool) (written i : Nat) (a : Act),
        (writeTrace allocOk written)[i]? = some a →
        underLock (writeTrace allocOk written) i →
        a = Act.appendTail ∨ a = Act.unlock) ∧
    (∀ k, Act.userCopy ∉ readTrace k) := by
  refine ⟨?_, ?_, userCopy_not_mem_readTrace⟩
  · intro allocOk written i hi
    cases allocOk with
    | false =>
      have ht : writeTrace false written = [Act.alloc] := by
        simp [writeTrace]
      rw [ht] at hi ⊢
      rcases i with _ | i
      · simp at hi
      · simp at hi
    | true =>
      by_cases hw : written = 0
      · rw [writeTrace_fault written hw] at hi ⊢
        rcases i with _ | _ | _ | i
        · simp at hi
        · decide
        · simp at hi
        · simp at hi
      · rw [writeTrace_success written hw] at hi ⊢
        rcases i with _ | _ | _ | _ | _ | _ | i
        · simp at hi
        · decide
        · simp at hi
        · simp at hi
        · simp at hi
        · simp at hi
        · simp at hi
  · intro allocOk written i a hi hl
    cases allocOk with
    | false =>
      have ht : writeTrace false written = [Act.alloc] := by
        simp [writeTrace]
      rw [ht] at hi hl
      rcases i with _ | i
      · exact absurd hl (by decide)
      · simp at hi
    | true =>
      by_cases hw : written = 0
      · rw [writeTrace_fault written hw] at hi hl
        rcases i with _ | _ | _ | i
        · exact absurd hl (by decide)
        · exact absurd hl (by decide)
        · exact absurd hl (by decide)
        · simp at hi
      · rw [writeTrace_success written hw] at hi hl
        rcases i with _ | _ | _ | _ | _ | _ | i
        · exact absurd hl (by decide)
        · exact absurd hl (by decide)
        · exact absurd hl (by decide)
        · simp at hi
          exact Or.inl hi.symm
        · simp at hi
          exact Or.inr hi.symm
        · exact absurd hl (by decide)
        · simp at hi

/-- C8 witness: in the successful write trace the userspace copy (index
1) runs without the lock, and the action at index 4 that does run under
the lock is the release following the tail append. -/
theorem C8_lock_not_held_across_user_copy_witness :
    ¬ underLock (writeTrace true 3) 1 ∧
    (Act.unlock = Act.appendTail ∨ Act.unlock = Act.unlock) :=
  ⟨C8_lock_not_held_across_user_copy.1 true 3 1 (by decide),
    C8_lock_not_held_across_user_copy.2.1 true 3 4 Act.unlock
      (by decide) (by decide)⟩

/-- C2, code evaluation at the failing input: with proc_create_data
failing, stage 0 (buffer list) succeeds and stage 1 (procfs) returns
-ENOMEM; simple_context_init then propagates -ENOMEM but calls term for
stages 1 and 0 — including stage 1, whose init failed — because the
for loop has already incremented i past the failed stage when it exits,
and that i is passed unchanged to the unwinding helper. -/
theorem C2_term_runs_for_failed_stage :
    (simple_context_init (g_ctx_init_ret false) g_ctx_init_size).ret =
      -ENOMEM ∧
    (simple_context_init (g_ctx_init_ret false)
      g_ctx_init_size).termCalls = [1, 0] := by
  decide

/-- C9: module teardown invokes the term of every stage exactly once in
reverse table order (procfs stage 1 before buffer log stage 0); buffer
list teardown frees exactly the entries of the list and leaves none
allocated; and no adapter operation ever removes an entry beforehand,
so every entry ever appended is still present at teardown and is
released there. -/
theorem C9_clean_teardown :
    simple_context_term g_ctx_init_size = [1, 0] ∧
    (∀ log : BufferLog,
        (simple_context_buffer_list_term log).freed = log ∧
        (simple_context_buffer_list_term log).remaining = []) ∧
    (∀ ops1 ops2 : List Op, ∃ tail,
        run [] (ops1 ++ ops2) = run [] ops1 ++ tail) := by
  refine ⟨by decide, buffer_list_term_spec, ?_⟩
  intro ops1 ops2
  rw [run_append]
  exact run_extends ops2 (run [] ops1)

/-- C10: whenever some stage of simple_context_init fails, the function
also executes kfree(ctx) on the context before returning the error —
even though its only caller, simple_driver_init, passes the statically
allocated g_ctx. -/
theorem C10_kfree_on_failed_init (stageInit : Nat → Int) (n : Nat)
    (h : (simple_context_init stageInit n).ret ≠ 0) :
    (simple_context_init stageInit n).freedCtx = true := by
  rw [simple_context_init] at h ⊢
  by_cases hr : (initLoop stageInit n).1 ≠ 0
  · simp [hr]
  · simp [hr] at h

/-- C10 witness: with proc_create_data failing, init fails and the
model records that kfree(ctx) ran. -/
theorem C10_kfree_on_failed_init_witness :
    (simple_context_init (g_ctx_init_ret false)
      g_ctx_init_size).freedCtx = true :=
  C10_kfree_on_failed_init (g_ctx_init_ret false) g_ctx_init_size
    (by decide)

end Simplemod
